import Mathlib

/-!
Verification of src/src/rag_functions.py: a shallow embedding of the
document-ingestion helpers (file-type validation, file metric counting,
batch content extraction, text chunking) together with theorems about
the behaviours the specification promises.

External collaborators (PyPDF2, python-pptx, the Azure document-analysis
service, UTF-8 decoding, werkzeug filename sanitisation, the filesystem
write) are modelled as oracle functions collected in the `Ext` structure:
an oracle returning `none` stands for the library call raising an
exception.  Machine strings are Lean `String`s; byte streams are
`List Nat`.
-/

namespace Rag

/-- ASCII lowering of a string, modelling Python s.lower() on the
extension strings that occur here (all ASCII). -/
def lowerStr (s : String) : String :=
  String.mk (s.toList.map Char.toLower)

/-- Python s.rsplit(sep, 1) underlying worker: split a character list at
the LAST occurrence of sep, returning the parts before and after it, or
none when sep does not occur. -/
def splitLast (sep : Char) : List Char → Option (List Char × List Char)
  | [] => none
  | c :: cs =>
    match splitLast sep cs with
    | some (a, b) => some (c :: a, b)
    | none => if c = sep then some ([], cs) else none

/-- Python filename.rsplit(sep, 1): a one-element list when sep is absent,
otherwise the prefix before and suffix after the last sep. -/
def rsplit1 (sep : Char) (s : String) : List String :=
  match splitLast sep s.toList with
  | none => [s]
  | some (a, b) => [String.mk a, String.mk b]

/-- Allowed file types (rag_functions.py line 49). -/
def allowed_files_list : List String := ["pdf", "txt", "pptx"]

/-- rag_functions.py lines 51-55: True iff "." occurs in the filename and
the lowercased part after the last "." is in the allow-list.  The Python
conjunction short-circuits, so the index [1] is only taken when a dot
exists. -/
def allowed_files (filename : String) : Bool :=
  decide ('.' ∈ filename.toList) &&
    (match (rsplit1 '.' filename).get? 1 with
     | some suf => decide (lowerStr suf ∈ allowed_files_list)
     | none => false)

/-- An uploaded file: a name, a byte stream, and the stream position. -/
structure UploadedFile where
  name : String
  content : List Nat
  pos : Nat
deriving DecidableEq

/-- Python uploaded_file.read(): the bytes from the current position to
the end, leaving the position at end-of-stream. -/
def readBytes (f : UploadedFile) : List Nat × UploadedFile :=
  (f.content.drop f.pos, ⟨f.name, f.content, f.content.length⟩)

/-- Python uploaded_file.seek(0). -/
def seek0 (f : UploadedFile) : UploadedFile :=
  ⟨f.name, f.content, 0⟩

/-- A file whose position has been advanced to end-of-stream by read(). -/
def atEnd (f : UploadedFile) : UploadedFile :=
  ⟨f.name, f.content, f.content.length⟩

/-- Python line-boundary characters of str.splitlines (other than the
two-character boundary CRLF, handled separately). -/
def isLineBreak (c : Char) : Bool :=
  c = '\n' || c = '\r' || c.toNat = 11 || c.toNat = 12 ||
  c.toNat = 28 || c.toNat = 29 || c.toNat = 30 || c.toNat = 133 ||
  c.toNat = 8232 || c.toNat = 8233

/-- Worker for splitlines: acc holds the current line reversed. -/
def splitlinesGo : List Char → List Char → List (List Char)
  | [], acc => if acc.isEmpty then [] else [acc.reverse]
  | '\r' :: '\n' :: rest, acc => acc.reverse :: splitlinesGo rest []
  | c :: rest, acc =>
    if isLineBreak c then acc.reverse :: splitlinesGo rest []
    else splitlinesGo rest (c :: acc)

/-- Python s.splitlines(): lines without their terminators; a trailing
terminator contributes no extra empty line. -/
def splitlines (s : String) : List String :=
  (splitlinesGo s.toList []).map String.mk

/-- External collaborators of the module, modelled as oracles.  A `none`
result stands for the corresponding library call raising an exception. -/
structure Ext where
  /-- PyPDF2 PdfReader: number of pages of a byte string. -/
  pdfPages : List Nat → Option Nat
  /-- python-pptx Presentation: slides, each a list of shapes, a shape
  carrying `some text` when it has a text attribute. -/
  pptxParse : List Nat → Option (List (List (Option String)))
  /-- Python bytes.decode on utf-8. -/
  decodeUtf8 : List Nat → Option String
  /-- Azure begin_analyze_document with the prebuilt-read model: the
  recognised pages, each a list of line contents. -/
  azureRead : List Nat → Option (List (List String))
  /-- werkzeug secure_filename. -/
  secureFilename : String → String
  /-- Whether opening and writing the artifact at a path succeeds. -/
  writeOk : String → Bool

/-- Python uploaded_file.name.rsplit(".", 1)[1].lower() — the lowercased
extension; `none` when the name has no dot, in which case the indexing
raises an IndexError outside any try block. -/
def extOfName (s : String) : Option String :=
  (splitLast '.' s.toList).map (fun p => String.mk (p.2.map Char.toLower))

/-- rag_functions.py lines 57-84 (file_check_num): the metric count for a
single uploaded file together with the file's final stream state; `none`
models the uncaught IndexError raised by the extension extraction on a
dot-free name.  In the pdf and pptx branches the seek(0) happens after
the parse, so a parse failure leaves the stream at end-of-stream. -/
def file_check_num (E : Ext) (f : UploadedFile) : Option (Int × UploadedFile) :=
  match extOfName f.name with
  | none => none
  | some file_ext =>
    if file_ext = "pdf" then
      let r := readBytes f
      match E.pdfPages r.1 with
      | some n => some ((n : Int), seek0 r.2)
      | none => some (-1, r.2)
    else if file_ext = "pptx" then
      let r := readBytes f
      match E.pptxParse r.1 with
      | some slides => some ((slides.length : Int), seek0 r.2)
      | none => some (-1, r.2)
    else if file_ext = "txt" then
      let r := readBytes f
      match E.decodeUtf8 r.1 with
      | some s => some (((splitlines s).length : Int), seek0 r.2)
      | none => some (-1, r.2)
    else
      some (-1, f)

/-- Python truthiness of os.getenv output: missing variables and empty
strings are falsy. -/
def isFalsy : Option String → Bool
  | none => true
  | some s => s = ""

/-- CPython splitext on a basename (no directory separator handling
needed here beyond splitting at the last slash below): the extension is
the part from the last dot on, except that a basename consisting of
leading dots only has no extension. -/
def splitextBase (p : List Char) : List Char × List Char :=
  match splitLast '.' p with
  | none => (p, [])
  | some (a, b) => if a.all (fun c => c = '.') then (p, []) else (a, '.' :: b)

/-- Python os.path.splitext (posix): split off the directory part at the
last slash, then split the basename at its last dot. -/
def splitextS (s : String) : String × String :=
  match splitLast '/' s.toList with
  | none =>
    let r := splitextBase s.toList
    (String.mk r.1, String.mk r.2)
  | some (d, bn) =>
    let r := splitextBase bn
    (String.mk (d ++ '/' :: r.1), String.mk r.2)

/-- Python os.path.join(a, b) (posix, two arguments). -/
def joinPath (a b : String) : String :=
  if b.toList.head? = some '/' then b
  else if a = "" || a.toList.getLast? = some '/' then a ++ b
  else a ++ "/" ++ b

/-- rag_functions.py lines 141-144: concatenate every recognised line of
every page, each followed by a newline, by successive appends. -/
def pdfContent (pages : List (List String)) : String :=
  pages.foldl (fun acc page => page.foldl (fun a l => a ++ l ++ "\n") acc) ""

/-- rag_functions.py lines 154-159: over slides then shapes, append the
text of every text-bearing shape followed by a newline. -/
def pptxContent (slides : List (List (Option String))) : String :=
  slides.foldl
    (fun acc shapes =>
      shapes.foldl
        (fun a sh => match sh with | some t => a ++ t ++ "\n" | none => a)
        acc)
    ""

/-- The filesystem visible to the extractor: written files as an
association list, most recent write first. -/
def Fs := List (String × String)

/-- The per-file dispatch of rag_functions.py lines 127-166: sanitise
the name, split off and lowercase the extension, extract the content per
type.  `none` is a skip (unsupported extension) or a raised-and-caught
per-file exception; `some` carries the artifact file name and content. -/
def fileArtifact (E : Ext) (f : UploadedFile) : Option (String × String) :=
  let filename := E.secureFilename f.name
  let be := splitextS filename
  let ext := lowerStr be.2
  let content? : Option String :=
    if ext = ".pdf" then (E.azureRead (readBytes f).1).map pdfContent
    else if ext = ".txt" then E.decodeUtf8 (readBytes f).1
    else if ext = ".pptx" then (E.pptxParse (readBytes f).1).map pptxContent
    else none
  content?.map (fun c => (be.1 ++ "_extracted.txt", c))

/-- One iteration of the extraction loop body (rag_functions.py lines
127-178): on success write the artifact and record its path; a write
failure is caught like any other per-file exception and contributes
nothing. -/
def processFile (E : Ext) (dir : String) (fs : Fs) (f : UploadedFile) :
    Fs × Option String :=
  match fileArtifact E f with
  | none => (fs, none)
  | some nc =>
    let path := joinPath dir nc.1
    if E.writeOk path then ((path, nc.2) :: fs, some path) else (fs, none)

/-- The loop body as a fold step over (collected paths, filesystem). -/
def extractStep (E : Ext) (dir : String) (st : List String × Fs)
    (f : UploadedFile) : List String × Fs :=
  let r := processFile E dir st.2 f
  (match r.2 with | some p => st.1 ++ [p] | none => st.1, r.1)

/-- rag_functions.py lines 98-180 (extract_contents_from_doc): abort with
an empty list when either credential is falsy, otherwise fold the
per-file loop over the batch, returning the collected artifact paths and
the final filesystem. -/
def extract_contents_from_doc (E : Ext) (endp key : Option String)
    (files : List UploadedFile) (dir : String) (fs : Fs) :
    List String × Fs :=
  if isFalsy endp || isFalsy key then ([], fs)
  else files.foldl (extractStep E dir) ([], fs)

/-- The outcome of processing one file, independent of the filesystem:
the artifact path on success, none on skip or failure. -/
def fileOutcome (E : Ext) (dir : String) (f : UploadedFile) : Option String :=
  (processFile E dir [] f).2

/-- Separator priority of rag_functions.py line 93. -/
def sepPriority : List Char := ['\n', ' ', '?', '.', '!']

/-- Split a character list at every occurrence of sep, consuming the
separator. -/
def splitOnSep (sep : Char) : List Char → List (List Char)
  | [] => [[]]
  | c :: rest =>
    let r := splitOnSep sep rest
    if c = sep then [] :: r
    else
      match r with
      | [] => [[c]]
      | p :: ps => (c :: p) :: ps

/-- Modelled from the spec: the recursive boundary search of the
third-party RecursiveCharacterTextSplitter (langchain), whose code is
not in src/.  Per spec section 4.4, a piece within chunk_size is
emitted; an oversized piece is split at the current separator and its
oversized sub-pieces are re-split with the remaining separators; when
no separator is left the piece is emitted as-is even if oversized. -/
def splitPieces (chunkSize : Nat) (seps : List Char) (cs : List Char) :
    List String :=
  if cs.length ≤ chunkSize then [String.mk cs]
  else
    match seps with
    | [] => [String.mk cs]
    | s :: rest => ((splitOnSep s cs).map (splitPieces chunkSize rest)).flatten

/-- The last n characters of a string. -/
def takeLastChars (n : Nat) (s : String) : String :=
  String.mk (s.toList.reverse.take n).reverse

/-- Worker for addOverlap: prepend to each piece the trailing overlap
characters of the piece before it. -/
def addOverlapGo (overlap : Nat) : String → List String → List String
  | _, [] => []
  | prev, q :: qs => (takeLastChars overlap prev ++ q) :: addOverlapGo overlap q qs

/-- Modelled from the spec: adjacent emitted chunks overlap by up to
chunk_overlap characters taken from the boundary region (spec sections
4.4 and 9); the first chunk is unchanged. -/
def addOverlap (overlap : Nat) : List String → List String
  | [] => []
  | p :: ps => p :: addOverlapGo overlap p ps

/-- rag_functions.py lines 88-96 (chunk_document): split the text with a
RecursiveCharacterTextSplitter over the fixed separator priority.
Modelled from the spec: the splitter itself is langchain code absent
from src/, embedded per spec section 4.4. -/
def chunk_document (text : String) (chunk_size : Nat := 1000)
    (chunk_overlap : Nat := 300) : List String :=
  addOverlap chunk_overlap (splitPieces chunk_size sepPriority text.toList)

/-! Helper lemmas. -/

theorem mk_toList (s : String) : String.mk s.toList = s := rfl

theorem toList_length (s : String) : s.toList.length = s.length := rfl

theorem splitLast_eq_none_iff (sep : Char) :
    ∀ l : List Char, splitLast sep l = none ↔ sep ∉ l := by
  intro l
  induction l with
  | nil => simp [splitLast]
  | cons c cs ih =>
    rw [splitLast]
    cases h : splitLast sep cs with
    | some ab =>
      have hmem : sep ∈ cs := by
        by_contra hn
        have h0 := ih.mpr hn
        rw [h] at h0
        exact Option.some_ne_none ab h0
      simp [List.mem_cons, hmem]
    | none =>
      have hmem : sep ∉ cs := ih.mp h
      by_cases hc : c = sep
      · subst hc
        simp
      · have hcs : sep ≠ c := fun hh => hc hh.symm
        simp [hc, hmem, hcs]

theorem splitLast_spec (sep : Char) :
    ∀ l a b, splitLast sep l = some (a, b) → l = a ++ sep :: b ∧ sep ∉ b := by
  intro l
  induction l with
  | nil => intro a b h; simp [splitLast] at h
  | cons c cs ih =>
    intro a b h
    rw [splitLast] at h
    cases h2 : splitLast sep cs with
    | some ab =>
      obtain ⟨a0, b0⟩ := ab
      rw [h2] at h
      simp only [Option.some.injEq, Prod.mk.injEq] at h
      obtain ⟨h3, h4⟩ := h
      obtain ⟨he, hnb⟩ := ih a0 b0 h2
      subst h4
      refine ⟨?_, hnb⟩
      rw [← h3, he]
      rfl
    | none =>
      rw [h2] at h
      by_cases hc : c = sep
      · rw [if_pos hc] at h
        simp only [Option.some.injEq, Prod.mk.injEq] at h
        obtain ⟨h3, h4⟩ := h
        subst h3; subst h4
        refine ⟨?_, (splitLast_eq_none_iff sep cs).mp h2⟩
        simp [hc]
      · rw [if_neg hc] at h
        cases h

/-! Claim theorems, in claim order where convenient. -/

/-- C5: for every string text whose length is strictly less than
chunk_size, chunk_document returns exactly one chunk, equal to the
input text. -/
theorem c5_chunk_short_single (text : String) (cs ov : Nat)
    (h : text.length < cs) :
    chunk_document text cs ov = [text] := by
  have hlen : text.toList.length ≤ cs := by
    rw [toList_length]
    omega
  unfold chunk_document splitPieces
  rw [if_pos hlen]
  simp [addOverlap, addOverlapGo, mk_toList]

/-- Witness for C5 at the concrete input "hi" with chunk_size 5. -/
theorem c5_witness :
    ("hi" : String).length < 5 ∧ chunk_document "hi" 5 3 = ["hi"] :=
  ⟨by decide, c5_chunk_short_single "hi" 5 3 (by decide)⟩

/-- C3: if either the document-analysis endpoint or the subscription key
is falsy, extract_contents_from_doc returns the empty list immediately,
leaving the filesystem untouched, whatever the batch holds. -/
theorem c3_missing_credentials (E : Ext) (endp key : Option String)
    (files : List UploadedFile) (dir : String) (fs : Fs)
    (h : isFalsy endp = true ∨ isFalsy key = true) :
    extract_contents_from_doc E endp key files dir fs = ([], fs) := by
  unfold extract_contents_from_doc
  rcases h with h | h <;> rw [h] <;> simp

/-- Witness for C3: a missing endpoint aborts a nonempty batch. -/
theorem c3_witness :
    extract_contents_from_doc
      ⟨fun _ => some 0, fun _ => some [], fun _ => some "", fun _ => some [],
       id, fun _ => true⟩
      none (some "key") [⟨"a.txt", [97], 0⟩] "/tmp" [] = ([], []) :=
  c3_missing_credentials _ none (some "key") _ "/tmp" [] (Or.inl rfl)

/-- C8: an uploaded file whose name has no dot makes file_check_num raise
(the extension extraction happens before the try block), modelled as the
none result, rather than returning the -1 sentinel. -/
theorem c8_no_dot_raises (E : Ext) (f : UploadedFile)
    (h : '.' ∉ f.name.toList) :
    file_check_num E f = none := by
  unfold file_check_num extOfName
  rw [(splitLast_eq_none_iff '.' f.name.toList).mpr h]
  rfl

/-- Witness for C8 at a concrete dot-free name. -/
theorem c8_witness :
    '.' ∉ ("noext" : String).toList ∧
      file_check_num
        ⟨fun _ => some 0, fun _ => some [], fun _ => some "", fun _ => some [],
         id, fun _ => true⟩
        ⟨"noext", [1], 0⟩ = none :=
  ⟨by decide, c8_no_dot_raises _ ⟨"noext", [1], 0⟩ (by decide)⟩

/-- Oracle set whose PDF page counter raises. -/
def extPdfFail : Ext :=
  ⟨fun _ => none, fun _ => some [], fun _ => some "", fun _ => some [],
   id, fun _ => true⟩

/-- A PDF upload with three bytes of content, stream at the start. -/
def filePdfEx : UploadedFile := ⟨"doc.pdf", [1, 2, 3], 0⟩

/-- C2 counterexample: on a supported .pdf file whose parse raises,
file_check_num does return -1, but the stream position is left at
end-of-stream (3), not restored to offset 0, refuting the claim as
stated. -/
theorem c2_counterexample :
    file_check_num extPdfFail filePdfEx
        = some (-1, (⟨"doc.pdf", [1, 2, 3], 3⟩ : UploadedFile)) ∧
      ((⟨"doc.pdf", [1, 2, 3], 3⟩ : UploadedFile)).pos ≠ 0 := by
  constructor
  · rfl
  · decide

/-- C2 amended: when the internal parse or decode of a supported file
raises, file_check_num returns exactly -1 without propagating, but the
stream is left at end-of-stream (where the read advanced it); the
position is restored to 0 only on success. -/
theorem c2_sentinel_stream_state (E : Ext) (f : UploadedFile) (e : String)
    (he : extOfName f.name = some e)
    (hf : (e = "pdf" ∧ E.pdfPages (readBytes f).1 = none) ∨
          (e = "pptx" ∧ E.pptxParse (readBytes f).1 = none) ∨
          (e = "txt" ∧ E.decodeUtf8 (readBytes f).1 = none)) :
    file_check_num E f = some (-1, atEnd f) := by
  unfold file_check_num
  rw [he]
  rcases hf with ⟨rfl, hn⟩ | ⟨rfl, hn⟩ | ⟨rfl, hn⟩ <;>
    simp only [readBytes] at hn <;>
    simp [hn, readBytes, atEnd]

/-- Witness for the amended C2 on a .txt file whose decode raises. -/
theorem c2_witness :
    file_check_num
      ⟨fun _ => some 0, fun _ => some [], fun _ => none, fun _ => some [],
       id, fun _ => true⟩
      ⟨"a.txt", [5], 0⟩ = some (-1, atEnd ⟨"a.txt", [5], 0⟩) :=
  c2_sentinel_stream_state _ ⟨"a.txt", [5], 0⟩ "txt" (by decide)
    (Or.inr (Or.inr ⟨rfl, rfl⟩))

/-- C9: file_check_num counts .txt lines with splitlines semantics: the
count is the splitlines length of the decoded content, so empty content
counts 0 lines and a trailing newline adds no extra line. -/
theorem c9_txt_splitlines (E : Ext) (f : UploadedFile) (s : String)
    (he : extOfName f.name = some "txt")
    (hd : E.decodeUtf8 (readBytes f).1 = some s) :
    file_check_num E f = some (((splitlines s).length : Int), seek0 f) ∧
      splitlines "" = [] ∧ splitlines "a\n" = ["a"] := by
  refine ⟨?_, by decide, by decide⟩
  unfold file_check_num
  rw [he]
  simp only [readBytes] at hd
  simp [hd, readBytes, seek0]

/-- Witness for C9 on a .txt file decoding to a single newline-terminated
line, counted as one line. -/
theorem c9_witness :
    file_check_num
      ⟨fun _ => some 0, fun _ => some [], fun _ => some "a\n",
       fun _ => some [], id, fun _ => true⟩
      ⟨"a.txt", [97, 10], 0⟩
        = some (((splitlines "a\n").length : Int), seek0 ⟨"a.txt", [97, 10], 0⟩) ∧
      splitlines "" = [] ∧ splitlines "a\n" = ["a"] :=
  c9_txt_splitlines _ ⟨"a.txt", [97, 10], 0⟩ "a\n" (by decide) rfl

theorem takeWhile_append_stop (p : Char → Bool) :
    ∀ (xs : List Char) (y : Char) (ys : List Char),
      (∀ x ∈ xs, p x = true) → p y = false →
      List.takeWhile p (xs ++ y :: ys) = xs := by
  intro xs
  induction xs with
  | nil =>
    intro y ys _ hy
    simp [List.takeWhile_cons, hy]
  | cons x rest ih =>
    intro y ys hall hy
    rw [List.cons_append, List.takeWhile_cons, hall x (by simp)]
    rw [ih y ys (fun z hz => hall z (by simp [hz])) hy]
    simp

theorem suffix_via_takeWhile (sep : Char) (a b : List Char) (hb : sep ∉ b) :
    ((a ++ sep :: b).reverse.takeWhile (fun c => c != sep)).reverse = b := by
  have hall : ∀ x ∈ b.reverse, (x != sep) = true := by
    intro x hx
    have hxb : x ∈ b := List.mem_reverse.mp hx
    have : x ≠ sep := fun hh => hb (hh ▸ hxb)
    simpa [bne_iff_ne] using this
  have hsep : ((sep != sep) : Bool) = false := by simp
  rw [List.reverse_append, List.reverse_cons, List.append_assoc,
    List.singleton_append,
    takeWhile_append_stop _ b.reverse sep a.reverse hall hsep,
    List.reverse_reverse]

/-- The lowercased suffix after the last dot, phrased the way the claim
states it: take the trailing run of non-dot characters. -/
def lowerLastSuffix (s : String) : String :=
  String.mk (((s.toList.reverse.takeWhile (fun c => c != '.')).reverse).map
    Char.toLower)

/-- C4: allowed_files is true exactly when the filename contains a dot
and the lowercased suffix after the last dot is pdf, txt or pptx; a
dot-free filename yields false (the total function never raises). -/
theorem c4_allowed_files_iff (fn : String) :
    allowed_files fn = true ↔
      ('.' ∈ fn.toList ∧ lowerLastSuffix fn ∈ allowed_files_list) := by
  cases h : splitLast '.' fn.toList with
  | none =>
    have hmem : '.' ∉ fn.toList := (splitLast_eq_none_iff '.' fn.toList).mp h
    have hmemd : '.' ∉ fn.data := hmem
    have h1 : allowed_files fn = false := by
      unfold allowed_files
      simp [hmem, hmemd]
    rw [h1]
    simp [hmem, hmemd]
  | some ab =>
    obtain ⟨a0, b0⟩ := ab
    obtain ⟨he, hnb⟩ := splitLast_spec '.' fn.toList a0 b0 h
    have hmem : '.' ∈ fn.toList := by
      rw [he]
      simp
    have hmemd : '.' ∈ fn.data := hmem
    have hsuf : lowerLastSuffix fn = String.mk (b0.map Char.toLower) := by
      unfold lowerLastSuffix
      rw [he, suffix_via_takeWhile '.' a0 b0 hnb]
    have h1 : allowed_files fn =
        decide (String.mk (b0.map Char.toLower) ∈ allowed_files_list) := by
      unfold allowed_files rsplit1
      rw [h]
      simp [hmem, hmemd, lowerStr]
    rw [h1, hsuf]
    simp [hmem, hmemd]

theorem str_append_assoc (a b c : String) : a ++ b ++ c = a ++ (b ++ c) := by
  apply String.ext
  simp

/-- The texts of the text-bearing shapes of one slide, in order. -/
def shapeTexts (shapes : List (Option String)) : List String :=
  shapes.filterMap id

/-- Each string followed by a newline, concatenated in order. -/
def linesConcat : List String → String
  | [] => ""
  | t :: ts => t ++ "\n" ++ linesConcat ts

theorem linesConcat_append (xs ys : List String) :
    linesConcat (xs ++ ys) = linesConcat xs ++ linesConcat ys := by
  induction xs with
  | nil => simp [linesConcat]
  | cons t ts ih => simp [linesConcat, ih, str_append_assoc]

theorem shapes_foldl_eq (shapes : List (Option String)) :
    ∀ a : String,
      shapes.foldl
          (fun a sh => match sh with | some t => a ++ t ++ "\n" | none => a) a
        = a ++ linesConcat (shapeTexts shapes) := by
  induction shapes with
  | nil => intro a; simp [shapeTexts, linesConcat]
  | cons sh rest ih =>
    intro a
    cases sh with
    | some t =>
      rw [List.foldl_cons]
      show List.foldl _ (a ++ t ++ "\n") rest = _
      rw [ih]
      simp [shapeTexts, linesConcat, str_append_assoc]
    | none =>
      rw [List.foldl_cons]
      show List.foldl _ a rest = _
      rw [ih]
      simp [shapeTexts]

theorem slides_foldl_eq :
    ∀ (slides : List (List (Option String))) (a : String),
      slides.foldl
          (fun acc shapes =>
            shapes.foldl
              (fun a sh => match sh with | some t => a ++ t ++ "\n" | none => a)
              acc) a
        = a ++ linesConcat ((slides.map shapeTexts).flatten) := by
  intro slides
  induction slides with
  | nil => intro a; simp [linesConcat]
  | cons s rest ih =>
    intro a
    rw [List.foldl_cons, shapes_foldl_eq, ih]
    simp [linesConcat_append, str_append_assoc]

theorem pptxContent_eq_flat (slides : List (List (Option String))) :
    pptxContent slides = linesConcat ((slides.map shapeTexts).flatten) := by
  unfold pptxContent
  rw [slides_foldl_eq]
  simp

/-- Extraction of a one-file batch whose per-file dispatch succeeds and
whose artifact write succeeds: the path is returned and the artifact is
on disk. -/
theorem extract_single_success (E : Ext) (endp key : Option String)
    (f : UploadedFile) (dir : String) (fs : Fs) (nameC content : String)
    (h1 : isFalsy endp = false) (h2 : isFalsy key = false)
    (hart : fileArtifact E f = some (nameC, content))
    (hw : E.writeOk (joinPath dir nameC) = true) :
    extract_contents_from_doc E endp key [f] dir fs =
      ([joinPath dir nameC], (joinPath dir nameC, content) :: fs) := by
  unfold extract_contents_from_doc
  rw [h1, h2]
  simp only [Bool.or_self, Bool.false_or, if_false]
  rw [List.foldl_cons, List.foldl_nil]
  unfold extractStep processFile
  rw [hart]
  simp [hw]

/-- C6: a .txt upload whose bytes decode to three newline-separated
lines yields an artifact named base_extracted.txt holding exactly the
decoded text, and file_check_num counts 3 lines and reseats the stream
at offset 0. -/
theorem c6_txt_end_to_end (E : Ext) (endp key : Option String)
    (f : UploadedFile) (dir base : String) (fs : Fs)
    (h1 : isFalsy endp = false) (h2 : isFalsy key = false)
    (h3 : splitextS (E.secureFilename f.name) = (base, ".txt"))
    (h4 : E.decodeUtf8 (readBytes f).1 = some "line1\nline2\nline3")
    (h5 : E.writeOk (joinPath dir (base ++ "_extracted.txt")) = true)
    (h6 : extOfName f.name = some "txt") :
    extract_contents_from_doc E endp key [f] dir fs =
      ([joinPath dir (base ++ "_extracted.txt")],
       (joinPath dir (base ++ "_extracted.txt"), "line1\nline2\nline3") :: fs) ∧
    file_check_num E f = some (3, seek0 f) := by
  constructor
  · apply extract_single_success E endp key f dir fs _ _ h1 h2 _ h5
    unfold fileArtifact
    simp only [readBytes] at h4
    simp [h3, h4, readBytes, show lowerStr ".txt" = ".txt" from rfl]
  · unfold file_check_num
    rw [h6]
    simp only [readBytes] at h4
    have hlen : (splitlines "line1\nline2\nline3").length = 3 := by decide
    simp [h4, readBytes, seek0, hlen]

/-- Witness oracles and upload for C6. -/
def extC6 : Ext :=
  ⟨fun _ => some 0, fun _ => some [], fun _ => some "line1\nline2\nline3",
   fun _ => some [], id, fun _ => true⟩

/-- The .txt upload of the C6 witness. -/
def fileTxtEx : UploadedFile := ⟨"notes.txt", [110], 0⟩

/-- Witness for C6 on a concrete one-file batch. -/
theorem c6_witness :
    extract_contents_from_doc extC6 (some "e") (some "k") [fileTxtEx] "/tmp" []
        = (["/tmp/notes_extracted.txt"],
           [("/tmp/notes_extracted.txt", "line1\nline2\nline3")]) ∧
      file_check_num extC6 fileTxtEx = some (3, seek0 fileTxtEx) := by
  have h := c6_txt_end_to_end extC6 (some "e") (some "k") fileTxtEx "/tmp"
    "notes" [] (by decide) (by decide) (by decide) rfl (by decide) (by decide)
  have hp : joinPath "/tmp" ("notes" ++ "_extracted.txt")
      = "/tmp/notes_extracted.txt" := by decide
  rw [hp] at h
  exact h

/-- C7: a .pptx upload is flattened slide-by-slide, shape-by-shape, each
text-bearing shape's text followed by a newline, and that flattened text
is the artifact content. -/
theorem c7_pptx_extraction (E : Ext) (endp key : Option String)
    (f : UploadedFile) (dir base : String) (fs : Fs)
    (slides : List (List (Option String)))
    (h1 : isFalsy endp = false) (h2 : isFalsy key = false)
    (h3 : splitextS (E.secureFilename f.name) = (base, ".pptx"))
    (h4 : E.pptxParse (readBytes f).1 = some slides)
    (h5 : E.writeOk (joinPath dir (base ++ "_extracted.txt")) = true) :
    extract_contents_from_doc E endp key [f] dir fs =
      ([joinPath dir (base ++ "_extracted.txt")],
       (joinPath dir (base ++ "_extracted.txt"),
        linesConcat ((slides.map shapeTexts).flatten)) :: fs) := by
  apply extract_single_success E endp key f dir fs _ _ h1 h2 _ h5
  unfold fileArtifact
  simp only [readBytes] at h4
  simp [h3, h4, readBytes, pptxContent_eq_flat,
    show lowerStr ".pptx" = ".pptx" from rfl]

/-- Witness oracles for C7: a two-slide deck with one text shape each. -/
def extC7 : Ext :=
  ⟨fun _ => some 0, fun _ => some [[some "A"], [some "B"]], fun _ => some "",
   fun _ => some [], id, fun _ => true⟩

/-- The .pptx upload of the C7 witness. -/
def filePptxEx : UploadedFile := ⟨"deck.pptx", [42], 0⟩

/-- Witness for C7: the two-slide A/B deck produces exactly A, newline,
B, newline. -/
theorem c7_witness :
    extract_contents_from_doc extC7 (some "e") (some "k") [filePptxEx] "/tmp" []
      = (["/tmp/deck_extracted.txt"], [("/tmp/deck_extracted.txt", "A\nB\n")]) := by
  have h := c7_pptx_extraction extC7 (some "e") (some "k") filePptxEx "/tmp"
    "deck" [] [[some "A"], [some "B"]] (by decide) (by decide) (by decide) rfl
    (by decide)
  have h1 : linesConcat (([[some "A"], [some "B"]].map shapeTexts).flatten)
      = "A\nB\n" := by decide
  have h2 : joinPath "/tmp" ("deck" ++ "_extracted.txt")
      = "/tmp/deck_extracted.txt" := by decide
  rw [h1, h2] at h
  exact h

theorem processFile_snd (E : Ext) (dir : String) (fs : Fs) (f : UploadedFile) :
    (processFile E dir fs f).2 = fileOutcome E dir f := by
  unfold fileOutcome processFile
  cases fileArtifact E f with
  | none => rfl
  | some nc => by_cases h : E.writeOk (joinPath dir nc.1) <;> simp [h]

theorem foldl_extract (E : Ext) (dir : String) :
    ∀ (files : List UploadedFile) (acc : List String) (fs : Fs),
      (files.foldl (extractStep E dir) (acc, fs)).1
        = acc ++ files.filterMap (fileOutcome E dir) := by
  intro files
  induction files with
  | nil => intro acc fs; simp
  | cons f rest ih =>
    intro acc fs
    rw [List.foldl_cons, List.filterMap_cons]
    have hstep : extractStep E dir (acc, fs) f =
        ((match fileOutcome E dir f with
          | some p => acc ++ [p]
          | none => acc),
         (processFile E dir fs f).1) := by
      show ((match (processFile E dir fs f).2 with
             | some p => acc ++ [p]
             | none => acc),
            (processFile E dir fs f).1) = _
      rw [processFile_snd]
    rw [hstep]
    cases ho : fileOutcome E dir f with
    | none =>
      show (List.foldl _ (acc, _) rest).1 = _
      rw [ih]
    | some p =>
      show (List.foldl _ (acc ++ [p], _) rest).1 = _
      rw [ih]
      simp

theorem filterMap_isNone_length {α β : Type} (g : α → Option β) :
    ∀ l : List α,
      (l.filterMap g).length
          + (l.filter (fun x => (g x).isNone)).length
        = l.length := by
  intro l
  induction l with
  | nil => rfl
  | cons x xs ih =>
    simp only [List.filterMap_cons, List.filter_cons]
    cases h : g x with
    | none =>
      simp
      omega
    | some b =>
      simp
      omega

/-- C1: with credentials present, the extractor returns exactly the
artifact paths of the files whose per-file processing succeeded, in
input order; skipped or failing files contribute nothing, so a batch of
N files with K skipped or failed yields N - K paths. -/
theorem c1_extract_batch_order (E : Ext) (endp key : Option String)
    (files : List UploadedFile) (dir : String) (fs : Fs)
    (h1 : isFalsy endp = false) (h2 : isFalsy key = false) :
    (extract_contents_from_doc E endp key files dir fs).1
        = files.filterMap (fileOutcome E dir) ∧
      (extract_contents_from_doc E endp key files dir fs).1.length
        = files.length
            - (files.filter (fun f => (fileOutcome E dir f).isNone)).length := by
  have hmain : (extract_contents_from_doc E endp key files dir fs).1
      = files.filterMap (fileOutcome E dir) := by
    unfold extract_contents_from_doc
    rw [h1, h2]
    simpa using foldl_extract E dir files [] fs
  refine ⟨hmain, ?_⟩
  rw [hmain]
  have h := filterMap_isNone_length (fileOutcome E dir) files
  omega

/-- Witness oracles for C1: txt and pptx succeed, the remote PDF service
raises, docx is unsupported. -/
def extBatchEx : Ext :=
  ⟨fun _ => some 1, fun _ => some [[some "A"]], fun _ => some "hello",
   fun _ => none, id, fun _ => true⟩

/-- The four-file batch of the C1 witness. -/
def batchFiles : List UploadedFile :=
  [⟨"a.txt", [97], 0⟩, ⟨"b.docx", [98], 0⟩, ⟨"c.pdf", [99], 0⟩,
   ⟨"d.pptx", [100], 0⟩]

/-- Witness for C1 on a concrete batch of four files with two
survivors. -/
theorem c1_witness :
    (extract_contents_from_doc extBatchEx (some "e") (some "k") batchFiles
          "/t" []).1
        = batchFiles.filterMap (fileOutcome extBatchEx "/t") ∧
      (extract_contents_from_doc extBatchEx (some "e") (some "k") batchFiles
          "/t" []).1.length
        = batchFiles.length
            - (batchFiles.filter
                (fun f => (fileOutcome extBatchEx "/t" f).isNone)).length :=
  c1_extract_batch_order extBatchEx (some "e") (some "k") batchFiles "/t" []
    (by decide) (by decide)

end Rag
